import Mathlib

/-!
Verification of the rspolib catalog engine (gettext PO/MO library).

This development shallowly embeds the Rust sources of the repository:

* `src/rust/src/bitwise.rs` — 32-bit little/big-endian integer/byte codecs;
* `src/rust/src/twrapper.rs` — the Unicode-aware line wrapper
  (`get_linebreaks`, `wrap`);
* `src/rust/src/entry.rs` and `src/rust/src/entry/moentry.rs` — the
  `MOEntry`/`POEntry` data model, the `translated` predicates, the merge
  operations and the shared PO-style serializer (`POStringField`,
  `mo_entry_to_string*`, `POEntry::to_string_with_wrapwidth`);
* `src/rust/src/file/mod.rs` — metadata ordering
  (`metadata_hashmap_to_ordered`, `METADATA_KEYS_ORDER`);
* `src/rust/src/file/pofile.rs` — `POFile`, its `Display` implementation,
  `find_by_msgid`, `find_by_msgid_msgctxt` and `Merge for POFile`.

Rust `String`s are embedded as `List Char`.  The catalog engine treats file
content as UTF-8; every concrete input used in the theorems below is ASCII,
for which one character occupies one byte, so character indices coincide with
the byte offsets used by the Rust code.  External Unicode crates
(`unicode_width`, `unicode_linebreak`, `unicode_segmentation`) are not part
of the repository; they are abstracted as an oracle record `Uni`, and a
concrete ASCII instance mirroring their documented behaviour on ASCII text is
provided for evaluation.  Rust `HashMap`s are embedded as association lists
(the code only ever iterates over them and then sorts, or performs
order-independent queries).
-/

namespace Rspolib

/-- Rust strings are embedded as lists of characters. -/
abbrev Str := List Char

/-! ## Bitwise codecs (`src/rust/src/bitwise.rs`)

The Rust functions operate on `u32` and `[u8; 4]`.  They are embedded over
`Nat` with explicit `% 2 ^ 8` truncations: `num as u8` is `num % 2 ^ 8` and
`num >> k` is `num / 2 ^ k`.  A byte array `[a0, a1, a2, a3]` is embedded as
a 4-tuple of naturals each below `2 ^ 8`. -/

/-- Embedding of `as_u8_array_le`: little-endian byte decomposition. -/
def as_u8_array_le (num : Nat) : Nat × Nat × Nat × Nat :=
  (num % 2 ^ 8,
   (num / 2 ^ 8) % 2 ^ 8,
   (num / 2 ^ 16) % 2 ^ 8,
   (num / 2 ^ 24) % 2 ^ 8)

/-- Embedding of `as_u8_array_be`: big-endian byte decomposition. -/
def as_u8_array_be (num : Nat) : Nat × Nat × Nat × Nat :=
  ((num / 2 ^ 24) % 2 ^ 8,
   (num / 2 ^ 16) % 2 ^ 8,
   (num / 2 ^ 8) % 2 ^ 8,
   num % 2 ^ 8)

/-- Embedding of `as_u32_le`: little-endian byte recomposition
(`(array[0] as u32) + ((array[1] as u32) << 8) + ...`). -/
def as_u32_le (a : Nat × Nat × Nat × Nat) : Nat :=
  a.1 + a.2.1 * 2 ^ 8 + a.2.2.1 * 2 ^ 16 + a.2.2.2 * 2 ^ 24

/-- Embedding of `as_u32_be`: big-endian byte recomposition. -/
def as_u32_be (a : Nat × Nat × Nat × Nat) : Nat :=
  a.1 * 2 ^ 24 + a.2.1 * 2 ^ 16 + a.2.2.1 * 2 ^ 8 + a.2.2.2

/-- C9: the little- and big-endian 32-bit integer/byte conversions of
`src/rust/src/bitwise.rs` are mutually inverse: for every `u32` value `n`,
`as_u32_le (as_u8_array_le n) = n` and `as_u32_be (as_u8_array_be n) = n`,
and for every 4-byte array `a`, `as_u8_array_le (as_u32_le a) = a` and
`as_u8_array_be (as_u32_be a) = a`. -/
theorem bitwise_conversions_inverse (n : Nat) (a : Nat × Nat × Nat × Nat)
    (hn : n < 2 ^ 32) (ha0 : a.1 < 2 ^ 8) (ha1 : a.2.1 < 2 ^ 8)
    (ha2 : a.2.2.1 < 2 ^ 8) (ha3 : a.2.2.2 < 2 ^ 8) :
    as_u32_le (as_u8_array_le n) = n ∧ as_u32_be (as_u8_array_be n) = n ∧
    as_u8_array_le (as_u32_le a) = a ∧ as_u8_array_be (as_u32_be a) = a := by
  obtain ⟨a0, a1, a2, a3⟩ := a
  simp only [as_u8_array_le, as_u8_array_be, as_u32_le, as_u32_be,
    Prod.mk.injEq] at *
  norm_num at *
  omega

/-- Witness for C9 at the MO magic number `0x950412DE` and the byte array
`(0xDE, 0x12, 0x04, 0x95)`. -/
theorem bitwise_conversions_inverse_witness :
    (2500072158 < 2 ^ 32 ∧ 222 < 2 ^ 8 ∧ 18 < 2 ^ 8 ∧ 4 < 2 ^ 8 ∧
      149 < 2 ^ 8) ∧
    (as_u32_le (as_u8_array_le 2500072158) = 2500072158 ∧
     as_u32_be (as_u8_array_be 2500072158) = 2500072158 ∧
     as_u8_array_le (as_u32_le (222, 18, 4, 149)) = (222, 18, 4, 149) ∧
     as_u8_array_be (as_u32_be (222, 18, 4, 149)) = (222, 18, 4, 149)) :=
  ⟨⟨by norm_num, by norm_num, by norm_num, by norm_num, by norm_num⟩,
    bitwise_conversions_inverse 2500072158 (222, 18, 4, 149)
      (by norm_num) (by norm_num) (by norm_num) (by norm_num) (by norm_num)⟩

/-! ## Unicode oracle

The wrapper and the serializers consume three external Unicode crates:
`unicode_width` (display width), `unicode_linebreak` (line-break
opportunities per UAX 14) and `unicode_segmentation` (grapheme clusters).
These crates are not part of the repository; they are abstracted as the
record below.  `linebreaks` returns the break-opportunity offsets of a text
in ascending order; the crate always reports a final mandatory break at the
end of the text, which is why concrete instances end the list with the text
length. -/

/-- Oracle for the external Unicode crates: per-character display width,
line-break opportunity offsets, and grapheme-cluster count. -/
structure Uni where
  width1 : Char → Nat
  linebreaks : Str → List Nat
  graphemes : Str → Nat

/-- Display width of a string: the sum of its characters' widths
(`UnicodeWidthStr::width`). -/
def strWidth (u : Uni) (s : Str) : Nat := (s.map u.width1).sum

/-- Modelled from the spec: the external `unicode_linebreak` crate is not
part of the repository.  On ASCII text its break opportunities sit after
each run of spaces, plus the mandatory final break at the end of the text
(spec section 4.2: breaks only at Unicode line-break opportunities). -/
def asciiLinebreaks (text : Str) : List Nat :=
  ((List.range text.length).filter (fun i =>
    text[i]? == some ' ' && !(text[i + 1]? == some ' '))).map (· + 1)
    ++ [text.length]

/-- Modelled from the spec: oracle instance for ASCII text, on which every
character is one byte wide, has display width 1 and is its own grapheme
cluster. -/
def asciiUni : Uni where
  width1 := fun _ => 1
  linebreaks := asciiLinebreaks
  graphemes := fun s => s.length

/-! ## Escaping (`src/escaping.rs`, declared in `lib.rs` but not included)

`escape` is modelled from spec section 4.1.  The serializer additionally
passes every emitted line through `unescape_except_double_quotes`; per spec
section 4.3 emitted content keeps its escape sequences, with `\"` preserved,
and the serializer tests of `src/rust/src/entry.rs` (`format_escapes`,
`multiline_format`) pin this pass to leave the already-escaped content of
`POStringField` unchanged, so it is embedded as the identity on its input. -/

/-- Modelled from the spec: `escape` replaces every `\`, `"`, newline, tab
and carriage-return with `\\`, `\"`, `\n`, `\t`, `\r` respectively. -/
def escape (s : Str) : Str :=
  s.flatMap (fun c =>
    if c = '\\' then ['\\', '\\']
    else if c = '"' then ['\\', '"']
    else if c = '\n' then ['\\', 'n']
    else if c = '\t' then ['\\', 't']
    else if c = '\r' then ['\\', 'r']
    else [c])

/-- Modelled from the spec: the content emission pass of `POStringField`.
On the serializer's already-escaped input it preserves every escape
sequence (see the section comment above), hence the identity embedding. -/
def unescape_except_double_quotes (s : Str) : Str := s

/-! ## Text wrapper (`src/rust/src/twrapper.rs`)

`get_linebreaks` receives the crate's break opportunities and commits a
break whenever the accumulated display width since the last committed break,
measured up to the *next* opportunity, exceeds `wrapwidth`.  The Rust code
builds a `HashMap` from each character's byte offset to its display width;
for the single-byte texts this development evaluates, byte offsets coincide
with character indices, so the map lookup at `i` is the width of `text[i]`
(and `0` past the end, mirroring `unwrap_or(&0)`). -/

/-- Width of the character starting at offset `i`
(`char_indices_widths.get(&i).unwrap_or(&0)`). -/
def charWidthAt (u : Uni) (text : Str) (i : Nat) : Nat :=
  match text[i]? with
  | some c => u.width1 c
  | none => 0

/-- Sum of the character widths over the offset range `[lo, hi)`: both the
`for c_width in accum_char_index..*lb` loop and the
`filter(|(i, _)| **i >= accum_char_index && **i < next_lb)` sum of the Rust
code reduce to this (map keys are exactly the in-range offsets). -/
def sumWidthRange (u : Uni) (text : Str) (lo hi : Nat) : Nat :=
  ((List.range' lo (hi - lo)).map (charWidthAt u text)).sum

/-- Loop body of `get_linebreaks`: `aci` is `accum_char_index`, `lbw` is
`last_break_width`; the last opportunity is skipped (`continue` on
`lbi == linebreaks.len() - 1`), and a break is committed at the current
opportunity when the width from the last committed break to the *next*
opportunity exceeds `wrapwidth`. -/
def get_linebreaksGo (u : Uni) (text : Str) (wrapwidth : Nat) :
    Nat → Nat → List Nat → List Nat
  | _, _, [] => []
  | aci, lbw, lb :: rest =>
    let aci2 := aci + sumWidthRange u text aci lb
    match rest with
    | [] => []
    | next_lb :: _ =>
      let widthToNext := sumWidthRange u text aci2 next_lb + aci2 - lbw
      if widthToNext > wrapwidth then
        lb :: get_linebreaksGo u text wrapwidth aci2 aci2 rest
      else
        get_linebreaksGo u text wrapwidth aci2 lbw rest

/-- Embedding of `get_linebreaks`, fed with the crate's break
opportunities. -/
def get_linebreaks (u : Uni) (linebreaks : List Nat) (text : Str)
    (wrapwidth : Nat) : List Nat :=
  get_linebreaksGo u text wrapwidth 0 0 linebreaks

/-- The slice loop of `wrap`: pieces `text[prev_lb..lb]` between committed
breaks, plus the final `text[prev_lb..]`. -/
def slicesBetween (text : Str) : Nat → List Nat → List Str
  | prev, [] => [text.drop prev]
  | prev, lb :: rest => (text.take lb).drop prev :: slicesBetween text lb rest

/-- Embedding of `wrap`. -/
def wrap (u : Uni) (text : Str) (wrapwidth : Nat) : List Str :=
  slicesBetween text 0 (get_linebreaks u (u.linebreaks text) text wrapwidth)

/-- The committed breaks form a sublist of the break opportunities. -/
theorem get_linebreaksGo_sublist (u : Uni) (text : Str) (wrapwidth : Nat) :
    ∀ (bs : List Nat) (aci lbw : Nat),
      (get_linebreaksGo u text wrapwidth aci lbw bs).Sublist bs := by
  intro bs
  induction bs with
  | nil => intro aci lbw; simp [get_linebreaksGo]
  | cons lb rest ih =>
    intro aci lbw
    match rest with
    | [] => simp [get_linebreaksGo]
    | next_lb :: rest' =>
      simp only [get_linebreaksGo]
      split
      · exact (ih _ _).cons₂ lb
      · exact (ih _ _).cons lb

/-- Concatenating the slices between nondecreasing break offsets recovers
the dropped suffix of the text. -/
theorem slicesBetween_flatten (text : Str) :
    ∀ (bs : List Nat) (prev : Nat), bs.Pairwise (· ≤ ·) →
      (∀ x ∈ bs, prev ≤ x) →
      (slicesBetween text prev bs).flatten = text.drop prev := by
  intro bs
  induction bs with
  | nil => intro prev _ _; simp [slicesBetween]
  | cons lb rest ih =>
    intro prev hpw hge
    have hprev : prev ≤ lb := hge lb (by simp)
    have hrest : (slicesBetween text lb rest).flatten = text.drop lb :=
      ih lb (hpw.sublist (List.sublist_cons_self lb rest))
        (fun x hx => (List.pairwise_cons.mp hpw).1 x hx)
    simp only [slicesBetween, List.flatten_cons, hrest]
    have h1 : (text.take lb).drop prev = (text.drop prev).take (lb - prev) :=
      List.drop_take lb prev text
    have h2 : text.drop lb = (text.drop prev).drop (lb - prev) := by
      rw [List.drop_drop]
      congr 1
      omega
    rw [h1, h2, List.take_append_drop]

/-- C8: joining the pieces returned by `wrap` reproduces the input text
exactly, for any break-opportunity list that is in ascending order (as the
`unicode_linebreak` crate guarantees). -/
theorem wrap_flatten_eq (u : Uni) (text : Str) (wrapwidth : Nat)
    (h : (u.linebreaks text).Pairwise (· ≤ ·)) :
    (wrap u text wrapwidth).flatten = text := by
  have hsub := get_linebreaksGo_sublist u text wrapwidth
    (u.linebreaks text) 0 0
  have := slicesBetween_flatten text
    (get_linebreaks u (u.linebreaks text) text wrapwidth) 0
    (List.Pairwise.sublist hsub h) (fun x _ => Nat.zero_le x)
  simpa [wrap, get_linebreaks] using this

/-- Witness for C8: the repository's own `twrapper` test string at
wrapwidth 10. -/
theorem wrap_flatten_eq_witness :
    (asciiUni.linebreaks ("This is a test.".data)).Pairwise (· ≤ ·) ∧
    (wrap asciiUni ("This is a test.".data) 10).flatten =
      "This is a test.".data :=
  ⟨by decide, wrap_flatten_eq asciiUni ("This is a test.".data) 10 (by decide)⟩

/-! ### Width-1 specialization of `get_linebreaks`

On text whose characters all have display width 1 (ASCII), the accumulator
`accum_char_index` of `get_linebreaks` tracks the current break offset and
the algorithm reduces to: commit a break at the current opportunity exactly
when the offset of the *next* opportunity exceeds the last committed offset
by more than `wrapwidth`. -/

/-- The committed breaks of `get_linebreaks` on width-1 text. -/
def commitBreaks (wrapwidth : Nat) : Nat → List Nat → List Nat
  | _, [] => []
  | _, [_] => []
  | lbw, lb :: next_lb :: rest =>
    if next_lb - lbw > wrapwidth then
      lb :: commitBreaks wrapwidth lb (next_lb :: rest)
    else
      commitBreaks wrapwidth lbw (next_lb :: rest)

/-- On width-1 text the width of an offset range clamps at the text
length. -/
theorem sumWidthRange_width1 (u : Uni) (hW : ∀ c, u.width1 c = 1)
    (text : Str) (lo hi : Nat) :
    sumWidthRange u text lo hi =
      min hi text.length - min lo text.length := by
  have hchar : ∀ i, charWidthAt u text i =
      if i < text.length then 1 else 0 := by
    intro i
    unfold charWidthAt
    rcases h : text[i]? with _ | c
    · rw [List.getElem?_eq_none_iff] at h
      simp [Nat.not_lt.mpr h]
    · have : i < text.length := by
        by_contra hc
        rw [List.getElem?_eq_none_iff.mpr (Nat.not_lt.mp hc)] at h
        exact Option.noConfusion h
      simp [this, hW c]
  have main : ∀ (n s : Nat),
      ((List.range' s n).map (charWidthAt u text)).sum =
        min (s + n) text.length - min s text.length := by
    intro n
    induction n with
    | zero => intro s; simp
    | succ n ih =>
      intro s
      rw [List.range'_succ]
      simp only [List.map_cons, List.sum_cons, ih (s + 1), hchar s]
      split <;> omega
  unfold sumWidthRange
  rw [main]
  omega

/-- On width-1 text, sorted in-bounds opportunities reduce
`get_linebreaks` to `commitBreaks`. -/
theorem get_linebreaksGo_width1 (u : Uni) (hW : ∀ c, u.width1 c = 1)
    (text : Str) (wrapwidth : Nat) :
    ∀ (bs : List Nat) (aci : Nat), (∀ b ∈ bs, b ≤ text.length) →
      bs.Pairwise (· ≤ ·) → (∀ b ∈ bs, aci ≤ b) → aci ≤ text.length →
      ∀ lbw, get_linebreaksGo u text wrapwidth aci lbw bs =
        commitBreaks wrapwidth lbw bs := by
  intro bs
  induction bs with
  | nil => intro aci _ _ _ _ lbw; rfl
  | cons lb rest ih =>
    intro aci hle hpw hge haci lbw
    have hlb_len : lb ≤ text.length := hle lb (by simp)
    have haci_lb : aci ≤ lb := hge lb (by simp)
    have haci2 : aci + sumWidthRange u text aci lb = lb := by
      rw [sumWidthRange_width1 u hW]
      omega
    match rest with
    | [] => rfl
    | next_lb :: rest' =>
      have hnext_len : next_lb ≤ text.length := hle next_lb (by simp)
      have hlb_next : lb ≤ next_lb :=
        (List.pairwise_cons.mp hpw).1 next_lb (by simp)
      have hnext : sumWidthRange u text lb next_lb = next_lb - lb := by
        rw [sumWidthRange_width1 u hW]
        omega
      have hrest_le : ∀ b ∈ next_lb :: rest', b ≤ text.length :=
        fun b hb => hle b (List.mem_cons_of_mem lb hb)
      have hrest_pw : (next_lb :: rest').Pairwise (· ≤ ·) :=
        (List.pairwise_cons.mp hpw).2
      have hrest_ge : ∀ b ∈ next_lb :: rest', lb ≤ b :=
        (List.pairwise_cons.mp hpw).1
      have hstep : get_linebreaksGo u text wrapwidth aci lbw
          (lb :: next_lb :: rest') =
          (if sumWidthRange u text (aci + sumWidthRange u text aci lb)
                next_lb + (aci + sumWidthRange u text aci lb) - lbw >
                wrapwidth then
            lb :: get_linebreaksGo u text wrapwidth
              (aci + sumWidthRange u text aci lb)
              (aci + sumWidthRange u text aci lb) (next_lb :: rest')
          else
            get_linebreaksGo u text wrapwidth
              (aci + sumWidthRange u text aci lb) lbw
              (next_lb :: rest')) := rfl
      have hcstep : commitBreaks wrapwidth lbw (lb :: next_lb :: rest') =
          (if next_lb - lbw > wrapwidth then
            lb :: commitBreaks wrapwidth lb (next_lb :: rest')
          else commitBreaks wrapwidth lbw (next_lb :: rest')) := rfl
      rw [hstep, hcstep, haci2, hnext]
      have harith : next_lb - lb + lb = next_lb := by omega
      rw [harith]
      split
      · rw [ih lb hrest_le hrest_pw hrest_ge hlb_len lb]
      · rw [ih lb hrest_le hrest_pw hrest_ge hlb_len lbw]

/-- Executable adjacent-gap bound: from `prev`, each next offset is at
most `w` further. -/
def gapsLe (w : Nat) : Nat → List Nat → Bool
  | _, [] => true
  | prev, b :: rest => decide (b - prev ≤ w) && gapsLe w b rest

/-- Every piece cut by `commitBreaks` is at most `wrapwidth` long, provided
consecutive break opportunities are at most `wrapwidth` apart and the final
opportunity sits at the end of the text. -/
theorem slicesBetween_commitBreaks_length_le (text : Str) (wrapwidth : Nat) :
    ∀ (bs : List Nat) (lbw : Nat),
      gapsLe wrapwidth lbw bs = true →
      bs.getLast? = some text.length →
      ∀ p ∈ slicesBetween text lbw (commitBreaks wrapwidth lbw bs),
        p.length ≤ wrapwidth := by
  intro bs
  induction bs with
  | nil => intro lbw _ hlast; exact absurd hlast (by simp)
  | cons lb rest ih =>
    intro lbw hchain hlast
    rw [gapsLe, Bool.and_eq_true, decide_eq_true_eq] at hchain
    match rest with
    | [] =>
      have hlb : lb = text.length := by simpa using hlast
      intro p hp
      simp only [commitBreaks, slicesBetween, List.mem_singleton] at hp
      subst hp
      rw [List.length_drop]
      omega
    | next_lb :: rest' =>
      have hchain2 : next_lb - lb ≤ wrapwidth ∧
          gapsLe wrapwidth next_lb rest' = true := by
        have := hchain.2
        rw [gapsLe, Bool.and_eq_true, decide_eq_true_eq] at this
        exact this
      have hlast' : (next_lb :: rest').getLast? = some text.length := by
        simpa using hlast
      simp only [commitBreaks]
      split
      · intro p hp
        simp only [slicesBetween, List.mem_cons] at hp
        rcases hp with hp | hp
        · subst hp
          rw [List.length_drop, List.length_take]
          omega
        · exact ih lb hchain.2 hlast' p hp
      · have hchain' : gapsLe wrapwidth lbw (next_lb :: rest') = true := by
          rw [gapsLe, Bool.and_eq_true, decide_eq_true_eq]
          exact ⟨by omega, hchain2.2⟩
        exact ih lbw hchain' hlast'

/-- Pieces emitted by `wrap` on width-1 text are at most `wrapwidth` long
when every gap between consecutive break opportunities (from the start of
the text to its final mandatory break) is at most `wrapwidth`. -/
theorem wrap_piece_length_le (u : Uni) (hW : ∀ c, u.width1 c = 1)
    (text : Str) (wrapwidth : Nat)
    (hle : ∀ b ∈ u.linebreaks text, b ≤ text.length)
    (hpw : (u.linebreaks text).Pairwise (· ≤ ·))
    (hlast : (u.linebreaks text).getLast? = some text.length)
    (hgap : gapsLe wrapwidth 0 (u.linebreaks text) = true) :
    ∀ p ∈ wrap u text wrapwidth, p.length ≤ wrapwidth := by
  have heq : get_linebreaks u (u.linebreaks text) text wrapwidth =
      commitBreaks wrapwidth 0 (u.linebreaks text) :=
    get_linebreaksGo_width1 u hW text wrapwidth (u.linebreaks text) 0 hle hpw
      (fun b _ => Nat.zero_le b) (Nat.zero_le _) 0
  intro p hp
  rw [wrap, heq] at hp
  exact slicesBetween_commitBreaks_length_le text wrapwidth
    (u.linebreaks text) 0 hgap hlast p hp

/-! ## String helpers shared by the serializers -/

/-- Embedding of Rust `str::lines()`: split on newline, where a trailing
newline does not produce a final empty line. -/
def rustLines (s : Str) : List Str :=
  if s.isEmpty then []
  else
    let parts := s.splitOn '\n'
    if parts.getLast? == some [] then parts.dropLast else parts

/-- Embedding of Rust `str::trim_end()`: drop trailing whitespace. -/
def rustTrimEnd (s : Str) : Str :=
  (s.reverse.dropWhile Char.isWhitespace).reverse

/-- Embedding of the `Ord` instance used by `indexes.sort()` on
`Vec<&String>`: Rust compares strings by their UTF-8 bytes, which orders
code points lexicographically. -/
def strLtb : Str → Str → Bool
  | _, [] => false
  | [], _ :: _ => true
  | a :: xs, b :: ys =>
    if a.toNat < b.toNat then true
    else if b.toNat < a.toNat then false
    else strLtb xs ys

/-- The `≤` relation of Rust's string `Ord`, used to drive the sort. -/
def strLe (a b : Str) : Bool := !strLtb b a

/-! ## `POStringField` (`src/rust/src/entry.rs`, `impl Display`)

The formatter first escapes the value; if the logical width
`width(escaped) + width(fieldname) + 1` exceeds `wrapwidth` it emits
`{delflag}{fieldname}[{idx}] ""` followed by one `{delflag}"{piece}"` line
per wrapped piece, else a single `{delflag}{fieldname}[{idx}] "{escaped}"`
line.  The lines (without their trailing newline) are produced by
`poStringFieldOutLines`; `poStringField` joins them, appending `\n` to
each, exactly as the `Display` implementation pushes them. -/

/-- The emitted lines of `POStringField`, without their trailing
newlines. -/
def poStringFieldOutLines (u : Uni)
    (fieldname delflag value plural_index : Str) (wrapwidth : Nat) :
    List Str :=
  let escaped_value := escape value
  let repr_plural_index : Str :=
    if plural_index.isEmpty then [] else '[' :: (plural_index ++ [']'])
  let real_width := strWidth u escaped_value + strWidth u fieldname + 1
  let lns : List Str :=
    if real_width > wrapwidth then [] :: wrap u escaped_value wrapwidth
    else [escaped_value]
  match lns with
  | [] => []
  | first :: rest =>
    (delflag ++ fieldname ++ repr_plural_index ++ ' ' :: '"' ::
        (unescape_except_double_quotes first ++ ['"'])) ::
      rest.map (fun line =>
        delflag ++ '"' :: (unescape_except_double_quotes line ++ ['"']))

/-- Embedding of `POStringField`'s `Display` output. -/
def poStringField (u : Uni)
    (fieldname delflag value plural_index : Str) (wrapwidth : Nat) : Str :=
  ((poStringFieldOutLines u fieldname delflag value plural_index
      wrapwidth).map (· ++ ['\n'])).flatten

/-! ## Entry model (`src/rust/src/entry.rs`, `src/rust/src/entry/moentry.rs`) -/

/-- Embedding of `MOEntry`.  The `msgstr_plural` `HashMap` is embedded as
an association list. -/
structure MOEntry where
  msgid : Str
  msgstr : Option Str
  msgid_plural : Option Str
  msgstr_plural : Option (List (Str × Str))
  msgctxt : Option Str
deriving DecidableEq

/-- Embedding of `POEntry`. -/
structure POEntry where
  msgid : Str
  msgstr : Option Str
  msgid_plural : Option Str
  msgstr_plural : List (Str × Str)
  msgctxt : Option Str
  obsolete : Bool
  comment : Option Str
  tcomment : Option Str
  occurrences : List (Str × Str)
  flags : List Str
  previous_msgctxt : Option Str
  previous_msgid : Option Str
  previous_msgid_plural : Option Str
  linenum : Nat
deriving DecidableEq

/-- Embedding of `POEntry::new`: empty `msgid`, defaults elsewhere. -/
def POEntry.new (linenum : Nat) : POEntry where
  msgid := []
  msgstr := none
  msgid_plural := none
  msgstr_plural := []
  msgctxt := none
  obsolete := false
  comment := none
  tcomment := none
  occurrences := []
  flags := []
  previous_msgctxt := none
  previous_msgid := none
  previous_msgid_plural := none
  linenum := linenum

/-- Embedding of `POEntry::fuzzy`. -/
def POEntry.fuzzy (e : POEntry) : Bool := e.flags.contains ("fuzzy".data)

/-- Embedding of `Translated for MOEntry` (`src/rust/src/entry/moentry.rs`
lines 78-96): an early return on `Some(msgstr)`, else the plural check. -/
def MOEntry.translated (e : MOEntry) : Bool :=
  match e.msgstr with
  | some msgstr => !msgstr.isEmpty
  | none =>
    match e.msgstr_plural with
    | some msgstr_plural =>
      if msgstr_plural.isEmpty then false
      else msgstr_plural.all (fun kv => !kv.2.isEmpty)
    | none => false

/-- Embedding of `Translated for POEntry` (`src/rust/src/entry.rs` lines
504-525): obsolete or fuzzy entries are untranslated; then an early return
on `Some(msgstr)`, else the plural check. -/
def POEntry.translated (e : POEntry) : Bool :=
  if e.obsolete || e.fuzzy then false
  else
    match e.msgstr with
    | some msgstr => !msgstr.isEmpty
    | none =>
      if e.msgstr_plural.isEmpty then false
      else e.msgstr_plural.all (fun kv => !kv.2.isEmpty)

/-- Embedding of `Merge for POEntry`: every field is overwritten with
`other`'s value. -/
def POEntry.merge (self other : POEntry) : POEntry :=
  { self with
    msgid := other.msgid
    msgstr := other.msgstr
    msgid_plural := other.msgid_plural
    msgstr_plural := other.msgstr_plural
    msgctxt := other.msgctxt
    obsolete := other.obsolete
    comment := other.comment
    tcomment := other.tcomment
    occurrences := other.occurrences
    flags := other.flags
    previous_msgctxt := other.previous_msgctxt
    previous_msgid := other.previous_msgid
    previous_msgid_plural := other.previous_msgid_plural
    linenum := other.linenum }

/-- Embedding of `From<&POEntry> for MOEntry`: an empty plural map becomes
`None`. -/
def MOEntry.fromPOEntry (e : POEntry) : MOEntry where
  msgid := e.msgid
  msgstr := e.msgstr
  msgid_plural := e.msgid_plural
  msgstr_plural :=
    if e.msgstr_plural.isEmpty then none else some e.msgstr_plural
  msgctxt := e.msgctxt

/-! ## Shared entry serializer (`src/rust/src/entry.rs`) -/

/-- Embedding of `metadata_msgstr_formatter`: `msgstr ""` then one
`"{line}\n"` line per metadata line (the `\n` is the two-character escape
sequence, `r"\n"` in the source). -/
def metadata_msgstr_formatter (msgstr _delflag : Str) (_wrapwidth : Nat) :
    Str :=
  ("msgstr \"\"\n".data) ++
    ((rustLines msgstr).map
      (fun line => '"' :: (line ++ ("\\n\"\n".data)))).flatten

/-- Embedding of `default_mo_entry_msgstr_formatter`: a `msgstr` field on
the trimmed value. -/
def default_mo_entry_msgstr_formatter (u : Uni)
    (msgstr delflag : Str) (wrapwidth : Nat) : Str :=
  poStringField u ("msgstr".data) delflag (rustTrimEnd msgstr) [] wrapwidth

/-- Embedding of `mo_entry_to_string_with_msgstr_formatter`: `msgctxt`,
`msgid`, `msgid_plural` fields, then either the `msgstr[i]` lines with the
indexes sorted by `indexes.sort()` — a stable sort under Rust's
lexicographic string order, embedded as the (stable) insertion sort over
`strLe` — or the `msgstr` formatter. -/
def mo_entry_to_string_with_msgstr_formatter (u : Uni) (entry : MOEntry)
    (wrapwidth : Nat) (delflag : Str)
    (msgstr_formatter : Str → Str → Nat → Str) : Str :=
  (match entry.msgctxt with
   | some msgctxt =>
     poStringField u ("msgctxt".data) delflag msgctxt [] wrapwidth
   | none => []) ++
  poStringField u ("msgid".data) delflag entry.msgid [] wrapwidth ++
  (match entry.msgid_plural with
   | some msgid_plural =>
     poStringField u ("msgid_plural".data) delflag msgid_plural [] wrapwidth
   | none => []) ++
  (match entry.msgstr_plural with
   | some msgstr_plural =>
     let indexes := List.insertionSort (fun a b => strLe a b = true)
       (msgstr_plural.map Prod.fst)
     (indexes.map (fun index =>
       poStringField u ("msgstr".data) delflag
         ((msgstr_plural.lookup index).getD []) index wrapwidth)).flatten
   | none => msgstr_formatter (entry.msgstr.getD []) delflag wrapwidth)

/-- Embedding of `mo_entry_to_string`. -/
def mo_entry_to_string (u : Uni) (entry : MOEntry) (wrapwidth : Nat)
    (delflag : Str) : Str :=
  mo_entry_to_string_with_msgstr_formatter u entry wrapwidth delflag
    (default_mo_entry_msgstr_formatter u)

/-- Embedding of `mo_metadata_entry_to_string`: wrapwidth 78, no
delflag, metadata formatter. -/
def mo_metadata_entry_to_string (u : Uni) (entry : MOEntry) : Str :=
  mo_entry_to_string_with_msgstr_formatter u entry 78 []
    metadata_msgstr_formatter

/-! ## `POEntry` serializer (`src/rust/src/entry.rs`) -/

/-- Embedding of `POEntry::format_comment_inplace`: per comment line, a
line longer than `wrapwidth - 2` graphemes is wrapped at `wrapwidth - 2`
and the pieces joined with newlines (note: without the prefix); otherwise
the prefix and the line are pushed; a newline ends each case. -/
def format_comment_inplace (u : Uni) (comment pfx : Str) (wrapwidth : Nat)
    (target : Str) : Str :=
  (rustLines comment).foldl (fun tgt line =>
    (if u.graphemes line + 2 > wrapwidth then
      tgt ++ List.intercalate ['\n'] (wrap u line (wrapwidth - 2))
    else tgt ++ pfx ++ line) ++ ['\n']) target

/-- Comments, occurrences and flags sections of
`POEntry::to_string_with_wrapwidth`. -/
def poEntryCommentsPart (u : Uni) (wrapwidth : Nat) (e : POEntry) : Str :=
  let r1 :=
    match e.tcomment with
    | some tcomment =>
      format_comment_inplace u tcomment ("#. ".data) wrapwidth []
    | none => []
  let r2 :=
    match e.comment with
    | some comment =>
      format_comment_inplace u comment ("# ".data) wrapwidth r1
    | none => r1
  let r3 :=
    if !e.obsolete && !e.occurrences.isEmpty then
      let files_repr := List.intercalate [' ']
        (e.occurrences.map (fun fl =>
          if fl.2.isEmpty then fl.1 else fl.1 ++ ':' :: fl.2))
      r2 ++
        (if u.graphemes files_repr + 3 > wrapwidth then
          List.intercalate ['\n']
            ((wrap u files_repr (wrapwidth - 3)).map
              (fun s => ("#: ".data) ++ s))
        else ("#: ".data) ++ files_repr) ++ ['\n']
    else r2
  if !e.flags.isEmpty then
    r3 ++ ("#, ".data) ++ List.intercalate (", ".data) e.flags ++ ['\n']
  else r3

/-- The prefix of the previous-value lines: `#| `, or `#~| ` when
obsolete. -/
def prevFieldsPfx (e : POEntry) : Str :=
  '#' :: (if e.obsolete then ['~'] else []) ++ ("| ".data)

/-- Previous `msgctxt` and `msgid` sections of the `POEntry`
serializer. -/
def poEntryPrevCtxtMsgidPart (u : Uni) (wrapwidth : Nat) (e : POEntry) :
    Str :=
  (match e.previous_msgctxt with
   | some p =>
     poStringField u ("msgctxt".data) (prevFieldsPfx e) p [] wrapwidth
   | none => []) ++
  (match e.previous_msgid with
   | some p =>
     poStringField u ("msgid".data) (prevFieldsPfx e) p [] wrapwidth
   | none => [])

/-- Previous `msgid_plural` section of the `POEntry` serializer.  The
source emits the field under the name `msgid` (not `msgid_plural`) and
pushes one extra newline after it. -/
def poEntryPrevMsgidPluralPart (u : Uni) (wrapwidth : Nat) (e : POEntry) :
    Str :=
  match e.previous_msgid_plural with
  | some p =>
    poStringField u ("msgid".data) (prevFieldsPfx e) p [] wrapwidth ++ ['\n']
  | none => []

/-- Body of the `POEntry` serializer: the shared `MOEntry` serializer on
the converted entry, with delflag `#~ ` for obsolete entries. -/
def poEntryBodyPart (u : Uni) (wrapwidth : Nat) (e : POEntry) : Str :=
  mo_entry_to_string u (MOEntry.fromPOEntry e) wrapwidth
    (if e.obsolete then ("#~ ".data) else [])

/-- Embedding of `POEntry::to_string_with_wrapwidth`: the four sections in
source order. -/
def POEntry.to_string_with_wrapwidth (u : Uni) (e : POEntry)
    (wrapwidth : Nat) : Str :=
  poEntryCommentsPart u wrapwidth e ++
  poEntryPrevCtxtMsgidPart u wrapwidth e ++
  poEntryPrevMsgidPluralPart u wrapwidth e ++
  poEntryBodyPart u wrapwidth e

/-! ## Metadata ordering (`src/rust/src/file/mod.rs`) -/

/-- Embedding of `METADATA_KEYS_ORDER`. -/
def METADATA_KEYS_ORDER : List Str :=
  [("Project-Id-Version".data), ("Report-Msgid-Bugs-To".data),
   ("POT-Creation-Date".data), ("PO-Revision-Date".data),
   ("Last-Translator".data), ("Language-Team".data), ("Language".data),
   ("MIME-Version".data), ("Content-Type".data),
   ("Content-Transfer-Encoding".data), ("Plural-Forms".data)]

/-- Tokenizer for the natural order: scans the string, accumulating
maximal digit runs into their numeric value (`true` tag) and passing other
characters through as their code point (`false` tag). -/
def natTokensGo : Option Nat → Str → List (Bool × Nat)
  | acc, [] =>
    match acc with
    | some v => [(true, v)]
    | none => []
  | acc, c :: rest =>
    if c.isDigit then
      natTokensGo (some ((acc.getD 0) * 10 + (c.toNat - 48))) rest
    else
      (match acc with
       | some v => [(true, v)]
       | none => []) ++ (false, c.toNat) :: natTokensGo none rest

/-- Tokens of a string for natural-order comparison. -/
def natTokens (s : Str) : List (Bool × Nat) := natTokensGo none s

/-- Natural-order sort key: tokens as lexicographic pairs. -/
def natKey (s : Str) : List (Lex (Nat × Nat)) :=
  (natTokens s).map (fun t => toLex (if t.1 then 1 else 0, t.2))

/-- Modelled from the spec: the external `natord` crate
(`natord::compare`) is not part of the repository.  Natural sort order:
strings compare lexicographically token by token with maximal runs of
digits compared numerically (so `X-Poedit-SearchPath-2` precedes
`X-Poedit-SearchPath-10`). -/
def natLe (a b : Str) : Bool := decide (natKey a ≤ natKey b)

/-- Embedding of `metadata_hashmap_to_ordered`: the canonical keys present
in the map, in `METADATA_KEYS_ORDER` order, then the naturally sorted
remaining keys (the `unwrap` of `metadata.get` is embedded as `getD`,
total on keys of the map). -/
def metadata_hashmap_to_ordered (metadata : List (Str × Str)) :
    List (Str × Str) :=
  (METADATA_KEYS_ORDER.filterMap (fun key =>
    (metadata.lookup key).map (fun value => (key, value)))) ++
  (((List.insertionSort (fun a b => natLe a b = true)
      (metadata.map Prod.fst)).filter (fun key =>
      !METADATA_KEYS_ORDER.contains key)).map (fun key =>
    (key, (metadata.lookup key).getD [])))

/-- Embedding of `metadata_hashmap_to_msgstr`: `Key: Value` lines joined
by newlines (the final `pop` is `dropLast`). -/
def metadata_hashmap_to_msgstr (metadata : List (Str × Str)) : Str :=
  ((metadata_hashmap_to_ordered metadata).foldl (fun msgstr kv =>
    msgstr ++ kv.1 ++ (": ".data) ++ kv.2 ++ ['\n']) []).dropLast

/-! ## `POFile` (`src/rust/src/file/pofile.rs`) -/

/-- Embedding of `POFile`.  The `options` record is omitted: the `Display`
implementation serializes entries through `POEntry`'s `Display`, which
fixes wrapwidth 78, and no claim below depends on the options. -/
structure POFile where
  header : Option Str
  metadata : List (Str × Str)
  metadata_is_fuzzy : Bool
  entries : List POEntry
deriving DecidableEq

/-- Embedding of `POFile::find_by_msgid`: first entry with the given
`msgid` (the Rust function returns a clone). -/
def POFile.find_by_msgid (f : POFile) (msgid : Str) : Option POEntry :=
  f.entries.find? (fun e => e.msgid == msgid)

/-- Embedding of `POFile::find_by_msgid_msgctxt`: first entry matching
both, a missing context comparing as the empty string. -/
def POFile.find_by_msgid_msgctxt (f : POFile) (msgid msgctxt : Str) :
    Option POEntry :=
  f.entries.find? (fun e =>
    e.msgid == msgid && e.msgctxt.getD [] == msgctxt)

/-- Embedding of `POFile::metadata_as_entry`. -/
def POFile.metadata_as_entry (f : POFile) : POEntry :=
  let e := POEntry.new 0
  let e :=
    if f.metadata_is_fuzzy then
      { e with flags := e.flags ++ [("fuzzy".data)] }
    else e
  if !f.metadata.isEmpty then
    { e with msgstr := some (metadata_hashmap_to_msgstr f.metadata) }
  else e

/-- Embedding of `Merge for POFile`.  For each entry of `other` a match is
looked up in the accumulated `self`; `find_by_msgid{_msgctxt}` returns a
*clone*, so the `entry.merge(...)` in the `Some` branch of the source
mutates that clone, which is then dropped — the file is left unchanged in
that branch.  Unmatched entries are appended as a fresh `POEntry::new(0)`
merged with the other entry.  Finally every entry whose `msgid` is absent
from `other` is marked obsolete. -/
def POFile.merge (self other : POFile) : POFile :=
  let afterLoop := other.entries.foldl (fun acc other_entry =>
    let entry :=
      match other_entry.msgctxt with
      | some msgctxt =>
        acc.find_by_msgid_msgctxt other_entry.msgid msgctxt
      | none => acc.find_by_msgid other_entry.msgid
    match entry with
    | some _ => acc
    | none =>
      { acc with entries :=
          acc.entries ++ [POEntry.merge (POEntry.new 0) other_entry] })
    self
  { afterLoop with entries := afterLoop.entries.map (fun entry =>
      if (other.find_by_msgid entry.msgid).isNone then
        { entry with obsolete := true }
      else entry) }

/-- Header section of `Display for POFile`: each header line prefixed
`# ` (bare `#` when empty). -/
def poFileHeaderPart (f : POFile) : Str :=
  match f.header with
  | some header =>
    ((rustLines header).map (fun line =>
      if line.isEmpty then ("#\n".data)
      else ("# ".data) ++ line ++ ['\n'])).flatten
  | none => []

/-- Embedding of `Display for POFile`: header, metadata entry, then a
single pass over the entries accumulating non-obsolete and obsolete
serializations in two buffers, non-obsolete first; the final `pop`
removes the last newline. -/
def poFileToString (u : Uni) (f : POFile) : Str :=
  let ret := poFileHeaderPart f ++
    mo_metadata_entry_to_string u (MOEntry.fromPOEntry f.metadata_as_entry)
    ++ ['\n']
  let parts := f.entries.foldl (fun (acc : Str × Str) entry =>
    if entry.obsolete then
      (acc.1, acc.2 ++ POEntry.to_string_with_wrapwidth u entry 78 ++ ['\n'])
    else
      (acc.1 ++ POEntry.to_string_with_wrapwidth u entry 78 ++ ['\n'],
        acc.2)) ([], [])
  (ret ++ parts.1 ++ parts.2).dropLast

/-! ## Claim theorems -/

/-- The translated-predicate for `POEntry` as the claim states it, with the
two disjuncts as an inclusive OR (stated for comparison with the code's
`POEntry.translated`). -/
def poTranslatedClaim (e : POEntry) : Bool :=
  !e.obsolete && !e.fuzzy &&
    (!(e.msgstr.getD []).isEmpty ||
      (!e.msgstr_plural.isEmpty &&
        e.msgstr_plural.all (fun kv => !kv.2.isEmpty)))

/-- The translated-predicate for `MOEntry` as the claim states it. -/
def moTranslatedClaim (e : MOEntry) : Bool :=
  !(e.msgstr.getD []).isEmpty ||
    (!(e.msgstr_plural.getD []).isEmpty &&
      (e.msgstr_plural.getD []).all (fun kv => !kv.2.isEmpty))

/-- C2, counterexample: an entry with `msgstr` present but empty and a
non-empty, all-non-empty `msgstr_plural` satisfies the claim's inclusive-OR
predicate but is *not* translated according to the code: the `Some(msgstr)`
early return ignores the plural translations.  The same holds for the
`MOEntry` predicate. -/
theorem translated_inclusive_or_counterexample :
    poTranslatedClaim
      { POEntry.new 0 with
        msgid := ("m".data), msgstr := some [],
        msgstr_plural := [(("0".data), ("x".data))] } = true ∧
    POEntry.translated
      { POEntry.new 0 with
        msgid := ("m".data), msgstr := some [],
        msgstr_plural := [(("0".data), ("x".data))] } = false ∧
    moTranslatedClaim
      { msgid := ("m".data), msgstr := some [], msgid_plural := none,
        msgstr_plural := some [(("0".data), ("x".data))],
        msgctxt := none } = true ∧
    MOEntry.translated
      { msgid := ("m".data), msgstr := some [], msgid_plural := none,
        msgstr_plural := some [(("0".data), ("x".data))],
        msgctxt := none } = false := by
  decide

/-- C2, amended: `POEntry::translated` returns true iff the entry is not
obsolete, not fuzzy, and — when `msgstr` is present — `msgstr` is
non-empty (the plural map is then ignored), or — when `msgstr` is absent —
`msgstr_plural` is non-empty with all its values non-empty.
`MOEntry::translated` behaves the same without the obsolete/fuzzy
guard. -/
theorem translated_characterization :
    (∀ e : POEntry, e.translated = true ↔
      (e.obsolete = false ∧ e.fuzzy = false ∧
        ((∃ s, e.msgstr = some s ∧ s ≠ []) ∨
         (e.msgstr = none ∧ e.msgstr_plural ≠ [] ∧
           ∀ kv ∈ e.msgstr_plural, kv.2 ≠ [])))) ∧
    (∀ m : MOEntry, m.translated = true ↔
      ((∃ s, m.msgstr = some s ∧ s ≠ []) ∨
       (m.msgstr = none ∧ ∃ pl, m.msgstr_plural = some pl ∧ pl ≠ [] ∧
         ∀ kv ∈ pl, kv.2 ≠ []))) := by
  constructor
  · intro e
    cases hob : e.obsolete <;> cases hfz : e.fuzzy <;>
      rcases hm : e.msgstr with _ | s <;>
        cases hpl : e.msgstr_plural <;>
          simp [POEntry.translated, hob, hfz, hm, hpl,
            List.isEmpty_iff, List.all_eq_true]
  · intro m
    rcases hm : m.msgstr with _ | s <;>
      rcases hpl : m.msgstr_plural with _ | pl
    · simp [MOEntry.translated, hm, hpl]
    · cases hemp : pl.isEmpty
      · have hne : pl ≠ [] := by
          intro hc
          rw [hc] at hemp
          exact Bool.noConfusion hemp
        simp [MOEntry.translated, hm, hpl, hemp, hne,
          List.all_eq_true, List.isEmpty_iff]
      · have : pl = [] := List.isEmpty_iff.mp hemp
        subst this
        simp [MOEntry.translated, hm, hpl]
    · simp [MOEntry.translated, hm, hpl, List.isEmpty_iff]
    · simp [MOEntry.translated, hm, hpl, List.isEmpty_iff]

/-- C3: the plural indexes are sorted by `indexes.sort()`, which is Rust's
*lexicographic* string order, so the index `"10"` sorts before `"2"` and
the serializer emits `msgstr[10]` before `msgstr[2]` — not the ascending
numeric order the specification requires. -/
theorem plural_indexes_sorted_lexicographically :
    mo_entry_to_string asciiUni
      { msgid := ("m".data), msgstr := none, msgid_plural := none,
        msgstr_plural := some [(("2".data), ("a".data)),
                               (("10".data), ("b".data))],
        msgctxt := none } 78 [] =
      ("msgid \"m\"\nmsgstr[10] \"b\"\nmsgstr[2] \"a\"\n".data) ∧
    mo_entry_to_string asciiUni
      { msgid := ("m".data), msgstr := none, msgid_plural := none,
        msgstr_plural := some [(("2".data), ("a".data)),
                               (("10".data), ("b".data))],
        msgctxt := none } 78 [] ≠
      ("msgid \"m\"\nmsgstr[2] \"a\"\nmsgstr[10] \"b\"\n".data) := by
  decide

/-- C6: when a comment line is longer than `wrapwidth - 2` graphemes,
`format_comment_inplace` joins the wrapped pieces with bare newlines and
never pushes the prefix, so *no* emitted line carries the `#. ` prefix —
the claim (and the spec) require every tcomment line to be prefixed. -/
theorem wrapped_comment_lines_lack_prefix :
    format_comment_inplace asciiUni ("aaaa bbbb cccc".data) ("#. ".data)
      10 [] = ("aaaa \nbbbb \ncccc\n".data) ∧
    (rustLines ("aaaa \nbbbb \ncccc\n".data)).all
      (fun line => !(("#. ".data).isPrefixOf line)) = true := by
  decide

/-- The `self` file of the C1 merge scenario: `msgid "a"` translated
`"old"`. -/
def mergeSelfFile : POFile where
  header := none
  metadata := []
  metadata_is_fuzzy := false
  entries := [{ POEntry.new 0 with
    msgid := ("a".data)
    msgstr := some ("old".data) }]

/-- The `other` file of the C1 merge scenario: `msgid "a"` translated
`"new"`. -/
def mergeOtherFile : POFile where
  header := none
  metadata := []
  metadata_is_fuzzy := false
  entries := [{ POEntry.new 0 with
    msgid := ("a".data)
    msgstr := some ("new".data) }]

/-- C1: `POFile::merge` never updates a matched entry.  `find_by_msgid`
returns a clone, and the `entry.merge(...)` of the `Some` branch mutates
that clone and drops it.  Here `self` holds `msgid "a"` with translation
`"old"`, `other` holds the same `msgid` with translation `"new"`: after
the merge, `self` is completely unchanged — the matched entry does not
hold `other`'s values as the claim requires. -/
theorem merge_leaves_matched_entries_unchanged :
    POFile.merge mergeSelfFile mergeOtherFile = mergeSelfFile ∧
    (POFile.merge mergeSelfFile mergeOtherFile).entries.map
      (fun e => e.msgstr) ≠ [some ("new".data)] := by
  decide

/-- The C7 scenario entry: `msgid "m"` with a previous plural `"p"`. -/
def prevPluralEntry : POEntry :=
  { POEntry.new 0 with
    msgid := ("m".data)
    previous_msgid_plural := some ("p".data) }

/-- C7, counterexample: an entry with `previous_msgid_plural = "p"` is
serialized with the field *name* `msgid` (the token `msgid_plural` never
appears in the output) and with an extra blank line after it — against
both parts of the claim. -/
theorem previous_msgid_plural_counterexample :
    POEntry.to_string_with_wrapwidth asciiUni prevPluralEntry 78 =
      ("#| msgid \"p\"\n\nmsgid \"m\"\nmsgstr \"\"\n".data) ∧
    ¬ ("msgid_plural".data) <:+:
      POEntry.to_string_with_wrapwidth asciiUni prevPluralEntry 78 ∧
    ("\n\n".data) <:+:
      POEntry.to_string_with_wrapwidth asciiUni prevPluralEntry 78 := by
  decide

/-- C7, amended: `previous_msgid_plural` is emitted as a field line whose
field name is `msgid` (the same name as `previous_msgid`), prefixed `#| `
(`#~| ` when obsolete), immediately after the `previous_msgctxt` and
`previous_msgid` sections, and one extra newline is appended after it
before the entry body. -/
theorem previous_msgid_plural_emission (u : Uni) (wrapwidth : Nat)
    (e : POEntry) (p : Str) (h : e.previous_msgid_plural = some p) :
    POEntry.to_string_with_wrapwidth u e wrapwidth =
      poEntryCommentsPart u wrapwidth e ++
      poEntryPrevCtxtMsgidPart u wrapwidth e ++
      (poStringField u ("msgid".data) (prevFieldsPfx e) p [] wrapwidth ++
        ['\n']) ++
      poEntryBodyPart u wrapwidth e := by
  rw [POEntry.to_string_with_wrapwidth, poEntryPrevMsgidPluralPart, h]

/-- Witness for C7's amended theorem at a concrete entry. -/
theorem previous_msgid_plural_emission_witness :
    prevPluralEntry.previous_msgid_plural = some ("p".data) ∧
    POEntry.to_string_with_wrapwidth asciiUni prevPluralEntry 78 =
      poEntryCommentsPart asciiUni 78 prevPluralEntry ++
      poEntryPrevCtxtMsgidPart asciiUni 78 prevPluralEntry ++
      (poStringField asciiUni ("msgid".data)
        (prevFieldsPfx prevPluralEntry) ("p".data) [] 78 ++ ['\n']) ++
      poEntryBodyPart asciiUni 78 prevPluralEntry :=
  ⟨rfl, previous_msgid_plural_emission asciiUni 78 prevPluralEntry
    ("p".data) rfl⟩

/-- The entry loop of `Display for POFile` accumulates the non-obsolete
and obsolete serializations in two separate buffers. -/
theorem poFileEntriesFold_eq (u : Uni) :
    ∀ (es : List POEntry) (l o : Str),
      es.foldl (fun (acc : Str × Str) entry =>
        if entry.obsolete then
          (acc.1,
            acc.2 ++ POEntry.to_string_with_wrapwidth u entry 78 ++ ['\n'])
        else
          (acc.1 ++ POEntry.to_string_with_wrapwidth u entry 78 ++ ['\n'],
            acc.2)) (l, o) =
      (l ++ ((es.filter (fun e => !e.obsolete)).map
          (fun e => POEntry.to_string_with_wrapwidth u e 78 ++
            ['\n'])).flatten,
       o ++ ((es.filter (fun e => e.obsolete)).map
          (fun e => POEntry.to_string_with_wrapwidth u e 78 ++
            ['\n'])).flatten) := by
  intro es
  induction es with
  | nil => intro l o; simp
  | cons e rest ih =>
    intro l o
    cases he : e.obsolete
    · rw [List.foldl_cons]
      simp only [he, Bool.false_eq_true, if_false]
      rw [ih]
      simp [List.filter_cons, he, List.append_assoc]
    · rw [List.foldl_cons]
      simp only [he, if_true]
      rw [ih]
      simp [List.filter_cons, he, List.append_assoc]

/-- C10: the serialized PO text places the header comment block first,
then the metadata entry, then every non-obsolete entry in sequence order,
then every obsolete entry in sequence order (the final `pop` drops the
trailing newline). -/
theorem pofile_serialization_order (u : Uni) (f : POFile) :
    poFileToString u f =
      (poFileHeaderPart f ++
       mo_metadata_entry_to_string u
         (MOEntry.fromPOEntry f.metadata_as_entry) ++ ['\n'] ++
       ((f.entries.filter (fun e => !e.obsolete)).map
         (fun e => POEntry.to_string_with_wrapwidth u e 78 ++
           ['\n'])).flatten ++
       ((f.entries.filter (fun e => e.obsolete)).map
         (fun e => POEntry.to_string_with_wrapwidth u e 78 ++
           ['\n'])).flatten).dropLast := by
  simp only [poFileToString]
  rw [poFileEntriesFold_eq u f.entries [] []]
  simp [List.append_assoc]

/-- Unfolding lemma for the natural order. -/
theorem natLe_iff {a b : Str} : natLe a b = true ↔ natKey a ≤ natKey b := by
  simp [natLe]

instance : IsTrans Str (fun a b => natLe a b = true) where
  trans _x _y _z hab hbc :=
    natLe_iff.mpr (le_trans (natLe_iff.mp hab) (natLe_iff.mp hbc))

instance : IsTotal Str (fun a b => natLe a b = true) where
  total a b := by
    rcases le_total (natKey a) (natKey b) with h | h
    · exact Or.inl (natLe_iff.mpr h)
    · exact Or.inr (natLe_iff.mpr h)

/-- The canonical pass of `metadata_hashmap_to_ordered` emits exactly the
canonical keys present in the map, in canonical order. -/
theorem filterMap_lookup_map_fst (md : List (Str × Str)) :
    ∀ keys : List Str,
      (keys.filterMap (fun key =>
        (md.lookup key).map (fun value => (key, value)))).map Prod.fst =
      keys.filter (fun key => (md.lookup key).isSome) := by
  intro keys
  induction keys with
  | nil => rfl
  | cons k rest ih =>
    cases h : md.lookup k <;> simp [h, ih, List.filter_cons]

/-- C5: the metadata serialization order is the canonical keys present in
the map first, in the fixed `METADATA_KEYS_ORDER` order, followed by all
remaining keys in natural sort order (digit runs comparing numerically, so
`X-Poedit-SearchPath-2` precedes `X-Poedit-SearchPath-10`). -/
theorem metadata_ordered_canonical_then_natural
    (metadata : List (Str × Str)) :
    ∃ canon rest,
      metadata_hashmap_to_ordered metadata = canon ++ rest ∧
      canon.map Prod.fst =
        METADATA_KEYS_ORDER.filter
          (fun key => (metadata.lookup key).isSome) ∧
      rest.Pairwise (fun a b => natLe a.1 b.1 = true) ∧
      (∀ kv ∈ rest, METADATA_KEYS_ORDER.contains kv.1 = false) ∧
      (rest.map Prod.fst).Perm
        ((metadata.map Prod.fst).filter
          (fun key => !METADATA_KEYS_ORDER.contains key)) ∧
      natLe ("X-Poedit-SearchPath-2".data)
        ("X-Poedit-SearchPath-10".data) = true ∧
      natLe ("X-Poedit-SearchPath-10".data)
        ("X-Poedit-SearchPath-2".data) = false := by
  refine ⟨_, _, rfl, filterMap_lookup_map_fst metadata METADATA_KEYS_ORDER,
    ?_, ?_, ?_, by decide, by decide⟩
  · have hs : List.Pairwise (fun a b => natLe a b = true)
        (List.insertionSort (fun a b => natLe a b = true)
          (metadata.map Prod.fst)) :=
      List.sorted_insertionSort _ _
    exact List.pairwise_map.mpr
      (hs.filter (fun key => !METADATA_KEYS_ORDER.contains key))
  · intro kv hkv
    obtain ⟨k, hk, rfl⟩ := List.mem_map.mp hkv
    simpa using List.of_mem_filter hk
  · rw [List.map_map]
    have hid : ((List.insertionSort (fun a b => natLe a b = true)
          (metadata.map Prod.fst)).filter
          (fun key => !METADATA_KEYS_ORDER.contains key)).map
        (Prod.fst ∘ fun key => (key, (metadata.lookup key).getD [])) =
        (List.insertionSort (fun a b => natLe a b = true)
          (metadata.map Prod.fst)).filter
          (fun key => !METADATA_KEYS_ORDER.contains key) := by
      have hcomp :
          (Prod.fst ∘ fun key => (key, (metadata.lookup key).getD [])) =
            id := rfl
      rw [hcomp, List.map_id]
    rw [hid]
    exact (List.perm_insertionSort _ _).filter _

/-- On width-1 text, display width is length. -/
theorem strWidth_width1 (u : Uni) (hW : ∀ c, u.width1 c = 1) :
    ∀ s : Str, strWidth u s = s.length := by
  intro s
  induction s with
  | nil => rfl
  | cons c rest ih =>
    rw [strWidth, List.map_cons, List.sum_cons, hW c]
    rw [strWidth] at ih
    rw [ih, List.length_cons]
    omega

/-- The catalog of the C4 counterexample: a single entry whose `msgid` is
one unbreakable 90-character run. -/
def longUnbreakableFile : POFile where
  header := none
  metadata := []
  metadata_is_fuzzy := false
  entries := [{ POEntry.new 0 with msgid := List.replicate 90 'b' }]

/-- C4, counterexample: serializing a catalog whose single entry has an
unbreakable 90-character `msgid` (at the `Display` wrapwidth 78) produces
a line of display width 92 > 78 + 2: the claimed bound fails whenever an
unbreakable run is wider than the wrapwidth. -/
theorem wrapwidth_bound_counterexample :
    (((poFileToString asciiUni longUnbreakableFile).splitOn '\n').any
      (fun line => decide (78 + 2 < strWidth asciiUni line))) = true := by
  decide

/-- C4, amended: for a live scalar string field over single-width text,
every emitted line has display width at most `wrapwidth + 2`, provided the
field name fits (`width(fieldname) + 1 ≤ wrapwidth`) and no unbreakable
run of the escaped value is wider than `wrapwidth` (every gap between
consecutive break opportunities is at most `wrapwidth`); the `+2` is the
two enclosing quotes.  An unbreakable run wider than `wrapwidth` is
emitted as a single piece and its line exceeds the bound (see the
counterexample). -/
theorem poStringField_line_width_le (u : Uni) (fieldname value : Str)
    (wrapwidth : Nat) (hW : ∀ c, u.width1 c = 1)
    (hle : ∀ b ∈ u.linebreaks (escape value), b ≤ (escape value).length)
    (hpw : (u.linebreaks (escape value)).Pairwise (· ≤ ·))
    (hlast : (u.linebreaks (escape value)).getLast? =
      some (escape value).length)
    (hgap : gapsLe wrapwidth 0 (u.linebreaks (escape value)) = true)
    (hf : strWidth u fieldname + 1 ≤ wrapwidth) :
    ∀ line ∈ poStringFieldOutLines u fieldname [] value [] wrapwidth,
      strWidth u line ≤ wrapwidth + 2 := by
  intro line hline
  have hlen := strWidth_width1 u hW
  have hpieces := wrap_piece_length_le u hW (escape value) wrapwidth
    hle hpw hlast hgap
  simp only [poStringFieldOutLines, List.isEmpty_nil, if_true,
    unescape_except_double_quotes] at hline
  by_cases hrw :
      strWidth u (escape value) + strWidth u fieldname + 1 > wrapwidth
  · rw [if_pos hrw] at hline
    simp only [List.mem_cons, List.mem_map] at hline
    rcases hline with hline | ⟨piece, hpiece, hline⟩
    · subst hline
      rw [hlen] at hf ⊢
      simp
      omega
    · subst hline
      have hp := hpieces piece hpiece
      rw [hlen]
      simp
      omega
  · rw [if_neg hrw] at hline
    simp only [List.map_nil, List.mem_singleton] at hline
    subst hline
    rw [hlen] at hrw ⊢
    rw [hlen] at hrw
    simp at hrw ⊢
    omega

/-- Witness for C4's amended theorem: field `msgid`, value
`"aaa bbb ccc"`, wrapwidth 7 (the value wraps into two continuation
lines). -/
theorem poStringField_line_width_le_witness :
    ((∀ c, asciiUni.width1 c = 1) ∧
     (∀ b ∈ asciiUni.linebreaks (escape ("aaa bbb ccc".data)),
       b ≤ (escape ("aaa bbb ccc".data)).length) ∧
     (asciiUni.linebreaks (escape ("aaa bbb ccc".data))).Pairwise
       (· ≤ ·) ∧
     (asciiUni.linebreaks (escape ("aaa bbb ccc".data))).getLast? =
       some (escape ("aaa bbb ccc".data)).length ∧
     gapsLe 7 0 (asciiUni.linebreaks (escape ("aaa bbb ccc".data))) =
       true ∧
     strWidth asciiUni ("msgid".data) + 1 ≤ 7) ∧
    (∀ line ∈ poStringFieldOutLines asciiUni ("msgid".data) []
        ("aaa bbb ccc".data) [] 7,
      strWidth asciiUni line ≤ 7 + 2) :=
  ⟨⟨fun _ => rfl, by decide, by decide, by decide, by decide, by decide⟩,
    poStringField_line_width_le asciiUni ("msgid".data)
      ("aaa bbb ccc".data) 7 (fun _ => rfl) (by decide) (by decide)
      (by decide) (by decide) (by decide)⟩

end Rspolib
